import Mathlib

/-!
Verification of the `pkg/version` package of the secrets-store-csi-driver
repository: a shallow embedding of `version.go` together with a faithful
model of the external semver library (blang/semver v3) it delegates to.

Go strings are modelled as lists of characters, Go multiple returns
`(value, error)` as pairs with an `Option` error component, and the
external `<provider> --version` process invocation as an explicit
`ProcResult` argument describing the outcome of the run at the level of
the documented protocol (run failure / undecodable stdout / a JSON object
with string fields).
-/

set_option autoImplicit false

namespace SecretsStoreVersion

/-- Go strings are modelled as lists of characters. -/
abbrev GoStr := List Char

/-- Embed a Lean string literal into the Go string model. -/
def str (s : String) : GoStr := s.toList

/-- Characters treated as whitespace by Go `strings.TrimSpace`
(the ASCII fragment of `unicode.IsSpace`). -/
def isSpaceChar (c : Char) : Bool :=
  c = ' ' || c = '\t' || c = '\n' || c = '\u000B' || c = '\u000C' || c = '\r'

/-- Go `strings.TrimSpace`: strip leading and trailing whitespace. -/
def trimSpace (s : GoStr) : GoStr :=
  ((s.dropWhile isSpaceChar).reverse.dropWhile isSpaceChar).reverse

/-- Split at the first occurrence of a separator: the text before it and the
text after it (Go `strings.IndexRune` plus slicing); `none` when absent. -/
def breakAt (sep : Char) : GoStr → Option (GoStr × GoStr)
  | [] => none
  | c :: rest =>
    if c = sep then some ([], rest)
    else (breakAt sep rest).map (fun ab => (c :: ab.1, ab.2))

/-- Go `strings.Split` with a one-character separator. -/
def goSplit (sep : Char) : GoStr → List GoStr
  | [] => [[]]
  | c :: rest =>
    match goSplit sep rest with
    | [] => [[]]
    | hd :: tl => if c = sep then [] :: hd :: tl else (c :: hd) :: tl

/-- Go `strings.SplitN` with a one-character separator and n = 3. -/
def goSplit3 (sep : Char) (s : GoStr) : List GoStr :=
  match breakAt sep s with
  | none => [s]
  | some (a, b) =>
    match breakAt sep b with
    | none => [a, b]
    | some (c, d) => [a, c, d]

/-- Which numeric component of a semver string an error refers to. -/
inductive NumPart
  | major
  | minor
  | patch
deriving DecidableEq

/-- The errors of blang/semver `Parse` (`semver.Make`). -/
inductive SemverError
  | emptyVersion
  | missingMajorMinorPatch
  | invalidChars (part : NumPart) (s : GoStr)
  | leadingZeroes (part : NumPart) (s : GoStr)
  | numRange (part : NumPart) (s : GoStr)
  | emptyPrerelease
  | numericPreLeadingZeroes (s : GoStr)
  | preNumRange (s : GoStr)
  | invalidCharsPre (s : GoStr)
  | emptyBuildMeta
  | invalidCharsBuild (s : GoStr)
deriving DecidableEq

/-- A parsed prerelease identifier (blang/semver `PRVersion`). -/
structure PRVersion where
  versionStr : GoStr
  versionNum : Nat
  isNum : Bool
deriving DecidableEq

/-- A parsed semantic version (blang/semver `Version`). -/
structure Version where
  major : Nat
  minor : Nat
  patch : Nat
  pre : List PRVersion
  build : List GoStr
deriving DecidableEq

/-- The alphanumeric character set of blang/semver: letters, digits and the
hyphen. -/
def isAlphanumChar (c : Char) : Bool := c.isAlpha || c.isDigit || c = '-'

/-- Go `strconv.ParseUint` in base 10 with a 64-bit bound. -/
def parseUint64 (s : GoStr) : Option Nat :=
  if s.isEmpty then none
  else if !s.all Char.isDigit then none
  else
    let n := s.foldl (fun acc c => acc * 10 + (c.toNat - 48)) 0
    if n < 18446744073709551616 then some n else none

/-- blang/semver `hasLeadingZeroes`. -/
def hasLeadingZeroes (s : GoStr) : Bool :=
  decide (1 < s.length) && decide (s.take 1 = ['0'])

/-- Parse one numeric component (major/minor/patch) as in blang/semver
`Parse`: digits only, no leading zeroes, within 64 bits. -/
def parseNumPart (part : NumPart) (s : GoStr) : Except SemverError Nat :=
  if !s.all Char.isDigit then .error (.invalidChars part s)
  else if hasLeadingZeroes s then .error (.leadingZeroes part s)
  else
    match parseUint64 s with
    | none => .error (.numRange part s)
    | some n => .ok n

/-- blang/semver `NewPRVersion`. -/
def newPRVersion (s : GoStr) : Except SemverError PRVersion :=
  if s.isEmpty then .error .emptyPrerelease
  else if s.all Char.isDigit then
    if hasLeadingZeroes s then .error (.numericPreLeadingZeroes s)
    else
      match parseUint64 s with
      | none => .error (.preNumRange s)
      | some n => .ok ⟨[], n, true⟩
  else if s.all isAlphanumChar then .ok ⟨s, 0, false⟩
  else .error (.invalidCharsPre s)

/-- Validation of one build-metadata identifier, as inlined in blang/semver
`Parse`. -/
def checkBuildId (s : GoStr) : Except SemverError GoStr :=
  if s.isEmpty then .error .emptyBuildMeta
  else if !s.all isAlphanumChar then .error (.invalidCharsBuild s)
  else .ok s

/-- blang/semver `Make` (`Parse`): parse a string as a semantic version. -/
def semverMake (s : GoStr) : Except SemverError Version :=
  if s.isEmpty then .error .emptyVersion
  else
    match goSplit3 '.' s with
    | [majorStr, minorStr, rest] => do
      let major ← parseNumPart .major majorStr
      let minor ← parseNumPart .minor minorStr
      let (afterBuild, buildIds) :=
        match breakAt '+' rest with
        | none => (rest, ([] : List GoStr))
        | some (a, b) => (a, goSplit '.' b)
      let (patchStr, preIds) :=
        match breakAt '-' afterBuild with
        | none => (afterBuild, ([] : List GoStr))
        | some (a, b) => (a, goSplit '.' b)
      let patch ← parseNumPart .patch patchStr
      let pre ← preIds.mapM newPRVersion
      let build ← buildIds.mapM checkBuildId
      .ok ⟨major, minor, patch, pre, build⟩
    | _ => .error .missingMajorMinorPatch

/-- Three-way comparison of natural numbers, with Go's -1/0/1 convention. -/
def cmpNat (a b : Nat) : Int := if a < b then -1 else if b < a then 1 else 0

/-- Go byte-wise string comparison (three-way) on the character-list model. -/
def cmpStr : GoStr → GoStr → Int
  | [], [] => 0
  | [], _ :: _ => -1
  | _ :: _, [] => 1
  | a :: as, b :: bs =>
    if a.toNat < b.toNat then -1
    else if b.toNat < a.toNat then 1
    else cmpStr as bs

/-- blang/semver `PRVersion.Compare`. -/
def prCompare (v o : PRVersion) : Int :=
  if v.isNum && !o.isNum then -1
  else if !v.isNum && o.isNum then 1
  else if v.isNum && o.isNum then cmpNat v.versionNum o.versionNum
  else cmpStr v.versionStr o.versionStr

/-- The prerelease-list comparison loop of blang/semver `Version.Compare`. -/
def preListCompare : List PRVersion → List PRVersion → Int
  | [], [] => 0
  | [], _ :: _ => -1
  | _ :: _, [] => 1
  | a :: as, b :: bs => if prCompare a b = 0 then preListCompare as bs else prCompare a b

/-- blang/semver `Version.Compare`. -/
def versionCompare (v o : Version) : Int :=
  if v.major ≠ o.major then cmpNat v.major o.major
  else if v.minor ≠ o.minor then cmpNat v.minor o.minor
  else if v.patch ≠ o.patch then cmpNat v.patch o.patch
  else if v.pre.isEmpty && o.pre.isEmpty then 0
  else if v.pre.isEmpty && !o.pre.isEmpty then 1
  else if !v.pre.isEmpty && o.pre.isEmpty then -1
  else preListCompare v.pre o.pre

/-- The record deserialized from a provider's `--version` output
(`providerVersion` in version.go). -/
structure providerVersion where
  version : GoStr
  buildDate : GoStr
  minDriverVersion : GoStr
deriving DecidableEq

/-- Errors produced by the version package's compatibility path. -/
inductive GoError
  | processError (provider errMsg stderr : GoStr)
  | decodeError
  | semverError (e : SemverError)
deriving DecidableEq

/-- Outcome of running `<provider> --version`, at the level of the documented
external protocol: the run failed, or it succeeded but stdout was not a JSON
object, or it succeeded with a JSON object of string fields. -/
inductive ProcResult
  | runError (errMsg stderr : GoStr)
  | badJson (stdout : GoStr)
  | jsonObj (fields : List (GoStr × GoStr))
deriving DecidableEq

/-- encoding/json field extraction from an object: the last binding of a key
wins; a missing key leaves the field at its zero value. -/
def lookupLast (k : GoStr) : List (GoStr × GoStr) → Option GoStr
  | [] => none
  | (k', v) :: rest =>
    match lookupLast k rest with
    | some v' => some v'
    | none => if k' = k then some v else none

/-- version.go `getProviderVersion`, with the external process's behaviour
supplied as a `ProcResult`. -/
def getProviderVersion (providerName : GoStr) (res : ProcResult) : GoStr × Option GoError :=
  match res with
  | .runError errMsg stderr => ([], some (.processError providerName errMsg stderr))
  | .badJson _ => ([], some .decodeError)
  | .jsonObj fields =>
    let pv : providerVersion :=
      { version := (lookupLast (str "version") fields).getD []
        buildDate := (lookupLast (str "buildDate") fields).getD []
        minDriverVersion := (lookupLast (str "minDriverVersion") fields).getD [] }
    (pv.version, none)

/-- version.go `isProviderCompatible`. -/
def isProviderCompatible (currVersion mnVersion : GoStr) : Bool × Option GoError :=
  match semverMake currVersion with
  | .error e => (false, some (.semverError e))
  | .ok currV =>
    match semverMake mnVersion with
    | .error e => (false, some (.semverError e))
    | .ok mnV => (decide (0 ≤ versionCompare currV mnV), none)

/-- version.go `normalizeVersion`: `strings.TrimPrefix(version, "v")`. -/
def normalizeVersion (version : GoStr) : GoStr :=
  if ['v'].isPrefixOf version then version.drop 1 else version

/-- version.go `IsProviderCompatible`. -/
def IsProviderCompatible (provider : GoStr) (probe : ProcResult)
    (minProviderVersion : GoStr) : Bool × Option GoError :=
  match getProviderVersion provider probe with
  | (_, some e) => (false, some e)
  | (curr, none) =>
    isProviderCompatible (normalizeVersion curr) (normalizeVersion minProviderVersion)

/-- The error kinds of `GetMinimumProviderVersions`, one per message shape. -/
inductive RegError
  | malformedEntry (pv : List GoStr)
  | malformedTokens (provider version : GoStr)
  | duplicateProvider (provider v1 v2 : GoStr)
  | invalidSemver (provider version : GoStr) (e : SemverError)
deriving DecidableEq

/-- Both malformed-format message shapes of `GetMinimumProviderVersions`
(the spec's `MalformedEntryError`). -/
def isMalformedEntry : RegError → Bool
  | .malformedEntry _ => true
  | .malformedTokens _ _ => true
  | _ => false

/-- Go map access on the association-list model of the registry. -/
def lookupAssoc (k : GoStr) : List (GoStr × GoStr) → Option GoStr
  | [] => none
  | (k', v) :: rest => if k' = k then some v else lookupAssoc k rest

/-- The body of the `GetMinimumProviderVersions` loop for one pair: either
the key/value to record, or the error that aborts the build. -/
def checkPair (p : GoStr) (acc : List (GoStr × GoStr)) : Except RegError (GoStr × GoStr) :=
  match goSplit '=' (trimSpace p) with
  | [a, b] =>
    let provider := trimSpace a
    let version := trimSpace b
    if provider.length = 0 || version.length = 0 then
      .error (.malformedTokens provider version)
    else
      match lookupAssoc provider acc with
      | some v => .error (.duplicateProvider provider v version)
      | none =>
        match semverMake version with
        | .error e => .error (.invalidSemver provider version e)
        | .ok _ => .ok (provider, version)
  | pv => .error (.malformedEntry pv)

/-- The `GetMinimumProviderVersions` loop over the comma-separated pairs. -/
def processProviders : List GoStr → List (GoStr × GoStr) → List (GoStr × GoStr) × Option RegError
  | [], acc => (acc, none)
  | p :: rest, acc =>
    match checkPair p acc with
    | .error e => (acc, some e)
    | .ok kv => processProviders rest (acc ++ [kv])

/-- version.go `GetMinimumProviderVersions`. -/
def GetMinimumProviderVersions (minProviderVersions : GoStr) :
    List (GoStr × GoStr) × Option RegError :=
  if minProviderVersions.isEmpty then ([], none)
  else processProviders (goSplit ',' minProviderVersions) []

/-- Whether a fallible computation succeeded. -/
def exceptIsOk {ε α : Type} : Except ε α → Bool
  | .ok _ => true
  | .error _ => false

/-- A pair that passes every per-pair check of `GetMinimumProviderVersions`
other than the duplicate check: it splits on `=` into exactly two tokens,
both non-empty after trimming, and its version token is valid semver. -/
def wellFormedPair (p : GoStr) : Bool :=
  match goSplit '=' (trimSpace p) with
  | [a, b] =>
    !(trimSpace a).isEmpty && !(trimSpace b).isEmpty && exceptIsOk (semverMake (trimSpace b))
  | _ => false

/-- The trimmed provider token of a pair. -/
def provName (p : GoStr) : GoStr := trimSpace ((goSplit '=' (trimSpace p)).headD [])

/-- The trimmed version token of a pair. -/
def verName (p : GoStr) : GoStr := trimSpace ((goSplit '=' (trimSpace p)).getD 1 [])

/-- The registry entry a well-formed pair contributes. -/
def pairKV (p : GoStr) : GoStr × GoStr := (provName p, verName p)

/-! ### Lemmas about the string model -/

theorem goSplit_ne_nil (sep : Char) (s : GoStr) : goSplit sep s ≠ [] := by
  cases s with
  | nil => simp [goSplit]
  | cons c rest =>
    simp only [goSplit]
    split
    · simp
    · split <;> simp

theorem breakAt_none_goSplit (sep : Char) (s : GoStr) (h : breakAt sep s = none) :
    goSplit sep s = [s] := by
  induction s with
  | nil => rfl
  | cons c rest ih =>
    simp only [breakAt] at h
    by_cases hc : c = sep
    · simp [hc] at h
    · rw [if_neg hc, Option.map_eq_none'] at h
      simp [goSplit, ih h, hc]

theorem breakAt_some_goSplit (sep : Char) (s a b : GoStr)
    (h : breakAt sep s = some (a, b)) : goSplit sep s = a :: goSplit sep b := by
  induction s generalizing a with
  | nil => simp [breakAt] at h
  | cons c rest ih =>
    simp only [breakAt] at h
    by_cases hc : c = sep
    · rw [if_pos hc] at h
      obtain ⟨ha, hb⟩ : ([] : GoStr) = a ∧ rest = b := by
        simpa using h
      rcases hg : goSplit sep rest with _ | ⟨hd, tl⟩
      · exact absurd hg (goSplit_ne_nil sep rest)
      · subst ha hb
        simp [goSplit, hg, hc]
    · rw [if_neg hc, Option.map_eq_some'] at h
      obtain ⟨⟨a', b'⟩, hab, hfa⟩ := h
      obtain ⟨ha, hb⟩ : c :: a' = a ∧ b' = b := by simpa using hfa
      subst ha hb
      simp [goSplit, ih a' hab, hc]

theorem breakAt_none_of_no_sep (sep : Char) (s : GoStr) (h : ∀ c ∈ s, c ≠ sep) :
    breakAt sep s = none := by
  induction s with
  | nil => rfl
  | cons c rest ih =>
    have hc : c ≠ sep := h c (by simp)
    simp only [breakAt, if_neg hc, Option.map_eq_none']
    exact ih (fun x hx => h x (by simp [hx]))

theorem goSplit_pair_breakAt (sep : Char) (s a b : GoStr)
    (h : goSplit sep s = [a, b]) : breakAt sep s = some (a, b) := by
  rcases hb : breakAt sep s with _ | ⟨a', b'⟩
  · rw [breakAt_none_goSplit sep s hb] at h
    simp at h
  · rw [breakAt_some_goSplit sep s a' b' hb] at h
    obtain ⟨ha, hrest⟩ : a' = a ∧ goSplit sep b' = [b] := by simpa using h
    rcases hb2 : breakAt sep b' with _ | ⟨c, d⟩
    · rw [breakAt_none_goSplit sep b' hb2] at hrest
      obtain rfl : b' = b := by simpa using hrest
      rw [ha]
    · rw [breakAt_some_goSplit sep b' c d hb2] at hrest
      exact absurd (by simpa using congrArg List.length hrest)
        (by simpa using goSplit_ne_nil sep d)

theorem trimSpace_eq_nil (s : GoStr) (h : s.all isSpaceChar = true) :
    trimSpace s = [] := by
  have hd : s.dropWhile isSpaceChar = [] := by
    rw [List.dropWhile_eq_nil_iff]
    intro x hx
    exact (List.all_eq_true.mp h) x hx
  simp [trimSpace, hd]

/-! ### Lemmas about registry lookup -/

theorem lookupAssoc_append_none (k : GoStr) (l1 l2 : List (GoStr × GoStr)) :
    lookupAssoc k (l1 ++ l2) = none ↔
      lookupAssoc k l1 = none ∧ lookupAssoc k l2 = none := by
  induction l1 with
  | nil => simp [lookupAssoc]
  | cons kv t ih =>
    obtain ⟨k', v⟩ := kv
    by_cases hk : k' = k
    · simp [lookupAssoc, hk]
    · simpa [lookupAssoc, hk] using ih

theorem lookupAssoc_append_of_none (k : GoStr) (l1 l2 : List (GoStr × GoStr))
    (h : lookupAssoc k l1 = none) :
    lookupAssoc k (l1 ++ l2) = lookupAssoc k l2 := by
  induction l1 with
  | nil => rfl
  | cons kv t ih =>
    obtain ⟨k', v⟩ := kv
    by_cases hk : k' = k
    · simp [lookupAssoc, hk] at h
    · simp only [lookupAssoc, if_neg hk] at h ⊢
      exact ih h

/-! ### Reflexivity of the semver comparison -/

theorem cmpNat_self (a : Nat) : cmpNat a a = 0 := by simp [cmpNat]

theorem cmpStr_self (s : GoStr) : cmpStr s s = 0 := by
  induction s with
  | nil => rfl
  | cons a t ih => simp [cmpStr, ih]

theorem prCompare_self (v : PRVersion) : prCompare v v = 0 := by
  cases h : v.isNum <;> simp [prCompare, h, cmpNat_self, cmpStr_self]

theorem preListCompare_self (l : List PRVersion) : preListCompare l l = 0 := by
  induction l with
  | nil => rfl
  | cons a t ih => simp [preListCompare, prCompare_self, ih]

theorem versionCompare_self (v : Version) : versionCompare v v = 0 := by
  cases h : v.pre.isEmpty <;>
    simp [versionCompare, h, preListCompare_self]

/-! ### Per-pair behaviour of the registry loop -/

theorem wellFormedPair_elim (p : GoStr) (hwf : wellFormedPair p = true) :
    ∃ a b, goSplit '=' (trimSpace p) = [a, b] ∧
      provName p = trimSpace a ∧ verName p = trimSpace b ∧
      trimSpace a ≠ [] ∧ trimSpace b ≠ [] ∧
      exceptIsOk (semverMake (trimSpace b)) = true := by
  unfold wellFormedPair at hwf
  split at hwf
  next a b heq =>
    obtain ⟨⟨h1, h2⟩, h3⟩ :
        (¬trimSpace a = [] ∧ ¬trimSpace b = []) ∧
          exceptIsOk (semverMake (trimSpace b)) = true := by
      simpa using hwf
    exact ⟨a, b, heq, by simp [provName, heq], by simp [verName, heq], h1, h2, h3⟩
  next => simp at hwf

theorem checkPair_wf_ok (p : GoStr) (acc : List (GoStr × GoStr))
    (hwf : wellFormedPair p = true)
    (hl : lookupAssoc (provName p) acc = none) :
    checkPair p acc = .ok (pairKV p) := by
  obtain ⟨a, b, heq, hpa, hvb, hea, heb, hsv⟩ := wellFormedPair_elim p hwf
  have hla : (trimSpace a).length ≠ 0 := by
    simpa [List.length_eq_zero] using hea
  have hlb : (trimSpace b).length ≠ 0 := by
    simpa [List.length_eq_zero] using heb
  rw [hpa] at hl
  simp only [checkPair, heq]
  rw [if_neg (by simp [hla, hlb])]
  rw [hl]
  cases hsm : semverMake (trimSpace b) with
  | error e => rw [hsm] at hsv; simp [exceptIsOk] at hsv
  | ok v => simp [pairKV, hpa, hvb]

theorem checkPair_wf_dup (p : GoStr) (acc : List (GoStr × GoStr)) (v : GoStr)
    (hwf : wellFormedPair p = true)
    (hl : lookupAssoc (provName p) acc = some v) :
    checkPair p acc = .error (.duplicateProvider (provName p) v (verName p)) := by
  obtain ⟨a, b, heq, hpa, hvb, hea, heb, hsv⟩ := wellFormedPair_elim p hwf
  have hla : (trimSpace a).length ≠ 0 := by
    simpa [List.length_eq_zero] using hea
  have hlb : (trimSpace b).length ≠ 0 := by
    simpa [List.length_eq_zero] using heb
  rw [hpa] at hl
  simp only [checkPair, heq]
  rw [if_neg (by simp [hla, hlb])]
  rw [hl, hpa, hvb]

/-! ### The registry loop over a run of accepted pairs -/

theorem processProviders_append (l1 rest : List GoStr) (acc : List (GoStr × GoStr))
    (hwf : ∀ q ∈ l1, wellFormedPair q = true)
    (hnd : (l1.map provName).Nodup)
    (hacc : ∀ q ∈ l1, lookupAssoc (provName q) acc = none) :
    processProviders (l1 ++ rest) acc = processProviders rest (acc ++ l1.map pairKV) := by
  induction l1 generalizing acc with
  | nil => simp
  | cons p t ih =>
    have hok : checkPair p acc = .ok (pairKV p) :=
      checkPair_wf_ok p acc (hwf p (by simp)) (hacc p (by simp))
    rw [List.map_cons, List.nodup_cons] at hnd
    obtain ⟨hnotmem, hnd'⟩ := hnd
    have hne : ∀ q ∈ t, provName p ≠ provName q := by
      intro q hq hcontra
      exact hnotmem (hcontra ▸ List.mem_map_of_mem provName hq)
    have hacc' : ∀ q ∈ t, lookupAssoc (provName q) (acc ++ [pairKV p]) = none := by
      intro q hq
      rw [lookupAssoc_append_none]
      refine ⟨hacc q (by simp [hq]), ?_⟩
      simp [lookupAssoc, pairKV, hne q hq]
    calc processProviders ((p :: t) ++ rest) acc
        = processProviders (t ++ rest) (acc ++ [pairKV p]) := by
          simp [processProviders, hok]
    _ = processProviders rest ((acc ++ [pairKV p]) ++ t.map pairKV) :=
          ih (acc ++ [pairKV p]) (fun q hq => hwf q (by simp [hq])) hnd' hacc'
    _ = processProviders rest (acc ++ (p :: t).map pairKV) := by
          simp

theorem processProviders_none_nodup (pairs : List GoStr) (acc : List (GoStr × GoStr))
    (hwf : ∀ q ∈ pairs, wellFormedPair q = true)
    (h : (processProviders pairs acc).2 = none) :
    (pairs.map provName).Nodup ∧ ∀ q ∈ pairs, lookupAssoc (provName q) acc = none := by
  induction pairs generalizing acc with
  | nil => simp
  | cons p t ih =>
    rcases hl : lookupAssoc (provName p) acc with _ | v
    · have hok : checkPair p acc = .ok (pairKV p) :=
        checkPair_wf_ok p acc (hwf p (by simp)) hl
      rw [show processProviders (p :: t) acc = processProviders t (acc ++ [pairKV p]) by
        simp [processProviders, hok]] at h
      obtain ⟨hnd, hacc⟩ := ih (acc ++ [pairKV p]) (fun q hq => hwf q (by simp [hq])) h
      have hne : ∀ q ∈ t, provName q ≠ provName p := by
        intro q hq hcontra
        have := (lookupAssoc_append_none (provName q) acc [pairKV p]).mp (hacc q hq)
        rw [hcontra] at this
        simp [lookupAssoc, pairKV] at this
      constructor
      · rw [List.map_cons, List.nodup_cons]
        refine ⟨?_, hnd⟩
        intro hmem
        obtain ⟨q, hq, hqe⟩ := List.mem_map.mp hmem
        exact hne q hq hqe
      · intro q hq
        rcases (List.mem_cons.mp hq) with rfl | hq'
        · exact hl
        · exact ((lookupAssoc_append_none (provName q) acc [pairKV p]).mp (hacc q hq')).1
    · have hdup := checkPair_wf_dup p acc v (hwf p (by simp)) hl
      rw [show processProviders (p :: t) acc =
        (acc, some (.duplicateProvider (provName p) v (verName p))) by
          simp [processProviders, hdup]] at h
      simp at h

theorem processProviders_wf_err_dup (pairs : List GoStr) (acc : List (GoStr × GoStr))
    (hwf : ∀ q ∈ pairs, wellFormedPair q = true) :
    (processProviders pairs acc).2 = none ∨
      ∃ prov v1 v2, (processProviders pairs acc).2 = some (.duplicateProvider prov v1 v2) := by
  induction pairs generalizing acc with
  | nil => left; rfl
  | cons p t ih =>
    rcases hl : lookupAssoc (provName p) acc with _ | v
    · have hok : checkPair p acc = .ok (pairKV p) :=
        checkPair_wf_ok p acc (hwf p (by simp)) hl
      rw [show processProviders (p :: t) acc = processProviders t (acc ++ [pairKV p]) by
        simp [processProviders, hok]]
      exact ih (acc ++ [pairKV p]) (fun q hq => hwf q (by simp [hq]))
    · have hdup := checkPair_wf_dup p acc v (hwf p (by simp)) hl
      right
      exact ⟨provName p, v, verName p, by simp [processProviders, hdup]⟩

theorem GetMin_eq_process (s : GoStr) (h : s ≠ []) :
    GetMinimumProviderVersions s = processProviders (goSplit ',' s) [] := by
  cases s with
  | nil => exact absurd rfl h
  | cons c t => rfl

/-! ### The claims -/

/-- Claim C7: `normalizeVersion` strips exactly one leading literal `v` when
present and otherwise returns its input unchanged, with no other
transformation; in particular the three spec examples hold. -/
theorem normalizeVersion_strips_one_v :
    (∀ s : GoStr, normalizeVersion ('v' :: s) = s) ∧
    (∀ s : GoStr, ['v'].isPrefixOf s = false → normalizeVersion s = s) ∧
    normalizeVersion (str "v1.2.3") = str "1.2.3" ∧
    normalizeVersion (str "1.2.3") = str "1.2.3" ∧
    normalizeVersion (str "vv1.2.3") = str "v1.2.3" := by
  refine ⟨?_, ?_, by decide, by decide, by decide⟩
  · intro s
    simp [normalizeVersion, List.isPrefixOf]
  · intro s h
    simp [normalizeVersion, h]

theorem normalizeVersion_strips_one_v_witness :
    normalizeVersion ('v' :: str "1.2.3") = str "1.2.3" ∧
      normalizeVersion (str "1.2.3") = str "1.2.3" :=
  ⟨normalizeVersion_strips_one_v.1 (str "1.2.3"),
   normalizeVersion_strips_one_v.2.1 (str "1.2.3") (by decide)⟩

/-- Claim C5: when the version probe fails (the process could not be run or
its output could not be decoded), `IsProviderCompatible` returns that error
unchanged together with a false verdict, independently of the minimum version,
so no normalization or comparison takes place. -/
theorem IsProviderCompatible_propagates_probe_error
    (provider minProviderVersion : GoStr) (probe : ProcResult) (e : GoError)
    (h : (getProviderVersion provider probe).2 = some e) :
    IsProviderCompatible provider probe minProviderVersion = (false, some e) := by
  rcases hg : getProviderVersion provider probe with ⟨curr, err⟩
  rw [hg] at h
  simp only at h
  subst h
  simp [IsProviderCompatible, hg]

theorem IsProviderCompatible_propagates_probe_error_witness :
    IsProviderCompatible (str "vault") (.runError (str "exit status 1") (str "bad flag"))
        (str "1.0.0")
      = (false, some (.processError (str "vault") (str "exit status 1") (str "bad flag"))) :=
  IsProviderCompatible_propagates_probe_error (str "vault") (str "1.0.0")
    (.runError (str "exit status 1") (str "bad flag"))
    (.processError (str "vault") (str "exit status 1") (str "bad flag")) rfl

/-- Claim C1: when the probe succeeds and both versions parse as semver after
normalization, `IsProviderCompatible` succeeds and returns true exactly when
the semver comparison of the normalized probed version against the normalized
minimum yields equal-or-greater (comparison result ≥ 0); in particular equal
parsed versions are compatible and a strictly smaller probed version is not. -/
theorem IsProviderCompatible_iff_compare
    (provider minProviderVersion : GoStr) (probe : ProcResult) (cv mv : Version)
    (hp : (getProviderVersion provider probe).2 = none)
    (hc : semverMake (normalizeVersion (getProviderVersion provider probe).1) = .ok cv)
    (hm : semverMake (normalizeVersion minProviderVersion) = .ok mv) :
    IsProviderCompatible provider probe minProviderVersion
        = (decide (0 ≤ versionCompare cv mv), none) ∧
      ((IsProviderCompatible provider probe minProviderVersion).1 = true ↔
        0 ≤ versionCompare cv mv) ∧
      (cv = mv → (IsProviderCompatible provider probe minProviderVersion).1 = true) ∧
      (versionCompare cv mv < 0 →
        (IsProviderCompatible provider probe minProviderVersion).1 = false) := by
  rcases hg : getProviderVersion provider probe with ⟨curr, err⟩
  rw [hg] at hp hc
  simp only at hp hc
  subst hp
  have hmain : IsProviderCompatible provider probe minProviderVersion
      = (decide (0 ≤ versionCompare cv mv), none) := by
    simp [IsProviderCompatible, hg, isProviderCompatible, hc, hm]
  refine ⟨hmain, ?_, ?_, ?_⟩
  · rw [hmain]
    simp
  · intro hcd
    rw [hmain]
    subst hcd
    simp [versionCompare_self]
  · intro hlt
    rw [hmain]
    simp only [decide_eq_false_iff_not]
    omega

theorem IsProviderCompatible_iff_compare_witness :
    IsProviderCompatible (str "vault") (.jsonObj [(str "version", str "1.0.0")])
      (str "1.0.0") = (true, none) := by
  have h := IsProviderCompatible_iff_compare (str "vault") (str "1.0.0")
    (.jsonObj [(str "version", str "1.0.0")]) ⟨1, 0, 0, [], []⟩ ⟨1, 0, 0, [], []⟩
    rfl rfl rfl
  rw [h.1]
  rfl

/-- Claim C6: the comparison underlying the compatibility check returns an
error (no boolean verdict) whenever either input fails semver parsing after
normalization; and a probe output whose JSON object lacks a `version` field
yields the empty string as the probed version, which then fails the comparison
as invalid semver. -/
theorem isProviderCompatible_error_on_invalid
    (a b p mn : GoStr) (fields : List (GoStr × GoStr))
    (hab : exceptIsOk (semverMake a) = false ∨ exceptIsOk (semverMake b) = false)
    (hfield : lookupLast (str "version") fields = none) :
    ((isProviderCompatible a b).1 = false ∧ (isProviderCompatible a b).2.isSome = true) ∧
      ((getProviderVersion p (.jsonObj fields)).1 = [] ∧
        (IsProviderCompatible p (.jsonObj fields) mn).2
          = some (.semverError .emptyVersion)) := by
  have hgv : getProviderVersion p (.jsonObj fields) = ([], none) := by
    simp [getProviderVersion, hfield]
  refine ⟨?_, by rw [hgv], ?_⟩
  · cases hsa : semverMake a with
    | error e => simp [isProviderCompatible, hsa]
    | ok cv =>
      cases hsb : semverMake b with
      | error e => simp [isProviderCompatible, hsa, hsb]
      | ok mv =>
        rcases hab with h | h
        · rw [hsa] at h
          simp [exceptIsOk] at h
        · rw [hsb] at h
          simp [exceptIsOk] at h
  · simp [IsProviderCompatible, hgv, isProviderCompatible, normalizeVersion, semverMake]

theorem isProviderCompatible_error_on_invalid_witness :
    ((isProviderCompatible (str "x") (str "1.0.0")).1 = false ∧
        (isProviderCompatible (str "x") (str "1.0.0")).2.isSome = true) ∧
      ((getProviderVersion (str "vault")
          (.jsonObj [(str "buildDate", str "today")])).1 = [] ∧
        (IsProviderCompatible (str "vault") (.jsonObj [(str "buildDate", str "today")])
            (str "1.0.0")).2 = some (.semverError .emptyVersion)) :=
  isProviderCompatible_error_on_invalid (str "x") (str "1.0.0") (str "vault")
    (str "1.0.0") [(str "buildDate", str "today")] (Or.inl rfl) rfl

/-- Claim C10: the two entry points disagree on a `v`-prefixed minimum:
`GetMinimumProviderVersions` rejects "vault=v1.0.0" with an invalid-semver
error because registry validation parses without normalizing, while
`IsProviderCompatible` accepts "v1.0.0" as its minimum argument because it
normalizes both versions before comparing. -/
theorem registry_and_checker_disagree_on_v_minimum :
    GetMinimumProviderVersions (str "vault=v1.0.0")
        = ([], some (.invalidSemver (str "vault") (str "v1.0.0")
            (.invalidChars .major (str "v1"))))
      ∧ IsProviderCompatible (str "vault")
          (.jsonObj [(str "version", str "v1.0.0")]) (str "v1.0.0")
        = (true, none) :=
  ⟨rfl, rfl⟩

/-- Claim C2, counterexample: the string " " consists only of whitespace, yet
`GetMinimumProviderVersions` returns an error for it rather than an empty
mapping with no error. -/
theorem GetMinimumProviderVersions_space_errors :
    (str " ").all isSpaceChar = true ∧
      (GetMinimumProviderVersions (str " ")).2 ≠ none := by
  decide

/-- Claim C2, amended: the empty string yields an empty mapping and no error;
a non-empty string consisting only of whitespace is not special-cased and
fails with a malformed-entry error. -/
theorem GetMinimumProviderVersions_empty_and_whitespace :
    GetMinimumProviderVersions [] = ([], none) ∧
      ∀ s : GoStr, s ≠ [] → s.all isSpaceChar = true →
        GetMinimumProviderVersions s = ([], some (.malformedEntry [[]])) := by
  refine ⟨rfl, ?_⟩
  intro s hne hsp
  have hnosep : ∀ c ∈ s, c ≠ ',' := by
    intro c hc hcontra
    have hspc := (List.all_eq_true.mp hsp) c hc
    rw [hcontra] at hspc
    simp [isSpaceChar] at hspc
  have hsplit : goSplit ',' s = [s] :=
    breakAt_none_goSplit ',' s (breakAt_none_of_no_sep ',' s hnosep)
  have hts : trimSpace s = [] := trimSpace_eq_nil s hsp
  have hcp : checkPair s [] = .error (.malformedEntry [[]]) := by
    simp [checkPair, hts, goSplit]
  rw [GetMin_eq_process s hne, hsplit]
  simp [processProviders, hcp]

theorem GetMinimumProviderVersions_empty_and_whitespace_witness :
    GetMinimumProviderVersions (str " ") = ([], some (.malformedEntry [[]])) :=
  GetMinimumProviderVersions_empty_and_whitespace.2 (str " ") (by decide) (by decide)

/-- Claim C3: the registry loop accepts a pair only when it splits on the
first `=` into two parts that are non-empty after trimming; otherwise the pair
is rejected with a malformed-entry error; in particular "vault1.0.0" (no `=`)
makes `GetMinimumProviderVersions` fail with a malformed-entry error. -/
theorem checkPair_accepts_only_wellformed (p : GoStr) (acc : List (GoStr × GoStr)) :
    (∀ kv, checkPair p acc = .ok kv →
        ∃ a b, breakAt '=' (trimSpace p) = some (a, b) ∧
          trimSpace a ≠ [] ∧ trimSpace b ≠ []) ∧
      ((¬ ∃ a b, breakAt '=' (trimSpace p) = some (a, b) ∧
          trimSpace a ≠ [] ∧ trimSpace b ≠ []) →
        ∃ e, checkPair p acc = .error e ∧ isMalformedEntry e = true) ∧
      GetMinimumProviderVersions (str "vault1.0.0")
        = ([], some (.malformedEntry [str "vault1.0.0"])) := by
  refine ⟨?_, ?_, by decide⟩
  · intro kv h
    unfold checkPair at h
    split at h
    next a b heq =>
      dsimp only at h
      split at h
      · exact absurd h (by simp)
      next hcond =>
        refine ⟨a, b, goSplit_pair_breakAt '=' (trimSpace p) a b heq, ?_, ?_⟩
        · intro hnil
          exact hcond (by simp [hnil])
        · intro hnil
          exact hcond (by simp [hnil])
    next pv _ => exact absurd h (by simp)
  · intro hn
    unfold checkPair
    split
    next a b heq =>
      have hbk := goSplit_pair_breakAt '=' (trimSpace p) a b heq
      have hcond : trimSpace a = [] ∨ trimSpace b = [] := by
        by_contra hcontra
        push_neg at hcontra
        exact hn ⟨a, b, hbk, hcontra.1, hcontra.2⟩
      have hc : (decide ((trimSpace a).length = 0)
          || decide ((trimSpace b).length = 0)) = true := by
        rcases hcond with h | h <;> simp [h]
      dsimp only
      rw [if_pos hc]
      exact ⟨.malformedTokens (trimSpace a) (trimSpace b), rfl, rfl⟩
    next pv _ => exact ⟨_, rfl, rfl⟩

theorem checkPair_accepts_only_wellformed_witness :
    (∃ a b, breakAt '=' (trimSpace (str "vault=1.0.0")) = some (a, b) ∧
        trimSpace a ≠ [] ∧ trimSpace b ≠ []) ∧
      (∃ e, checkPair (str "vault1.0.0") [] = .error e ∧ isMalformedEntry e = true) :=
  ⟨(checkPair_accepts_only_wellformed (str "vault=1.0.0") []).1
      (str "vault", str "1.0.0") rfl,
   (checkPair_accepts_only_wellformed (str "vault1.0.0") []).2.1 (by
      rintro ⟨a, b, hab, -, -⟩
      rw [show breakAt '=' (trimSpace (str "vault1.0.0")) = none from rfl] at hab
      exact Option.noConfusion hab)⟩

/-- Claim C4, counterexample: in "vault=bad,vault=1.0.0" the trimmed provider
name vault appears in two pairs, yet `GetMinimumProviderVersions` fails with
an invalid-semver error for the first pair, not a duplicate-provider error. -/
theorem duplicate_not_always_reported :
    (¬ ((goSplit ',' (str "vault=bad,vault=1.0.0")).map provName).Nodup) ∧
      (GetMinimumProviderVersions (str "vault=bad,vault=1.0.0")).2
        = some (.invalidSemver (str "vault") (str "bad") .missingMajorMinorPatch) :=
  ⟨by decide, rfl⟩

/-- Claim C4, amended: on a configuration string whose comma-separated pairs
are all well-formed with valid-semver versions, a trimmed provider name that
appears in more than one pair makes `GetMinimumProviderVersions` fail with a
duplicate-provider error naming the provider and two version strings,
regardless of whether the versions are identical or different. -/
theorem GetMinimumProviderVersions_duplicate (s : GoStr)
    (hwf : ∀ p ∈ goSplit ',' s, wellFormedPair p = true)
    (hdup : ¬ ((goSplit ',' s).map provName).Nodup) :
    ∃ prov v1 v2, (GetMinimumProviderVersions s).2
      = some (.duplicateProvider prov v1 v2) := by
  have hne : s ≠ [] := by
    rintro rfl
    exact absurd (hwf [] (by decide)) (by decide)
  rw [GetMin_eq_process s hne]
  rcases processProviders_wf_err_dup (goSplit ',' s) [] hwf with hnone | hd
  · obtain ⟨hnd, _⟩ := processProviders_none_nodup (goSplit ',' s) [] hwf hnone
    exact absurd hnd hdup
  · exact hd

theorem GetMinimumProviderVersions_duplicate_witness :
    ∃ prov v1 v2, (GetMinimumProviderVersions (str "vault=1.0.0,vault=1.0.0")).2
      = some (.duplicateProvider prov v1 v2) :=
  GetMinimumProviderVersions_duplicate (str "vault=1.0.0,vault=1.0.0")
    (by decide) (by decide)

/-- Claim C8: on a configuration string whose comma-separated pairs each trim
to a non-empty provider name and a valid-semver version with all provider
names distinct, `GetMinimumProviderVersions` succeeds and returns the mapping
sending each trimmed provider name to its trimmed version string. -/
theorem GetMinimumProviderVersions_success (s : GoStr)
    (hwf : ∀ p ∈ goSplit ',' s, wellFormedPair p = true)
    (hnd : ((goSplit ',' s).map provName).Nodup) :
    GetMinimumProviderVersions s = ((goSplit ',' s).map pairKV, none) := by
  have hne : s ≠ [] := by
    rintro rfl
    exact absurd (hwf [] (by decide)) (by decide)
  rw [GetMin_eq_process s hne]
  have h := processProviders_append (goSplit ',' s) [] [] hwf hnd (fun q hq => rfl)
  rw [List.append_nil] at h
  rw [h]
  simp [processProviders]

theorem GetMinimumProviderVersions_success_witness :
    GetMinimumProviderVersions (str "vault=1.0.0,azure=2.1.3")
      = ([(str "vault", str "1.0.0"), (str "azure", str "2.1.3")], none) :=
  (GetMinimumProviderVersions_success (str "vault=1.0.0,azure=2.1.3")
    (by decide) (by decide)).trans (by decide)

/-- Claim C9: pairs are validated in input order and the first violation is
the one reported: whenever the comma-split of the input is an accepted run l1
followed by a pair p whose per-pair check fails with error e, the whole build
reports e, whatever pairs follow; the result is a deterministic function of
the input. -/
theorem GetMinimumProviderVersions_first_violation (s : GoStr)
    (l1 l2 : List GoStr) (p : GoStr) (e : RegError)
    (hne : s ≠ [])
    (hsplit : goSplit ',' s = l1 ++ p :: l2)
    (hwf : ∀ q ∈ l1, wellFormedPair q = true)
    (hnd : (l1.map provName).Nodup)
    (hp : checkPair p (l1.map pairKV) = .error e) :
    (GetMinimumProviderVersions s).2 = some e := by
  rw [GetMin_eq_process s hne, hsplit]
  rw [processProviders_append l1 (p :: l2) [] hwf hnd (fun q hq => rfl)]
  simp [processProviders, hp]

theorem GetMinimumProviderVersions_first_violation_witness :
    (GetMinimumProviderVersions (str "vault=1.0.0,bad,azure=2.0.0")).2
      = some (.malformedEntry [str "bad"]) :=
  GetMinimumProviderVersions_first_violation (str "vault=1.0.0,bad,azure=2.0.0")
    [str "vault=1.0.0"] [str "azure=2.0.0"] (str "bad") (.malformedEntry [str "bad"])
    (by decide) (by decide) (by decide) (by decide) rfl

end SecretsStoreVersion
